import Mathlib

/-!
Verification of the OxyTrack offline-first sync and ledger-derivation core.

The definitions below are a shallow embedding of the TypeScript source:

* `src/services/dataManager.ts` — `mergeArrays`, `pushToRemoteData`,
  `loadFromStorage`, the normalization performed in `subscribeToRemoteData`
  and inside the push transaction, and the module-level `lastReceivedJSON`
  baseline variable.
* `src/App.tsx` — `recalculateCustomerStats` and `handleSaveTransaction`.

Modelling conventions:

* `JSON.stringify` comparison of two values of the same record shape is
  modelled as structural equality (for fixed-shape records built by the same
  code paths, stringify is injective and key order is fixed).  Accordingly the
  baseline variable `lastReceivedJSON` (a serialized snapshot, or the empty
  string) is modelled as `Option AppData`.
* A JavaScript `Map` built from an entity list keeps, for each key, the last
  entry with that key (`jsGet`); a `Set` of keys keeps first-occurrence order
  (`dedupFirst`).
* `Array.prototype.sort` with the comparator `(a, b) => a.timestamp - b.timestamp`
  is a stable ascending sort by timestamp; it is embedded as a stable insertion
  sort (`sortByTimestamp`).
* JavaScript numbers holding integer quantities are embedded as `Int`
  (balances can go negative); timestamps (milliseconds since epoch) as `Nat`.
* The falsy-default idiom `x || d` on numbers is `jsOrInt`; on possibly
  absent object fields it is `Option.getD`.
-/

/-- The four bottle kinds (`BottleType` in `types.ts` / `constants.ts`). -/
inductive BottleType : Type where
  | OXYZONE_LARGE
  | OXYZONE_SMALL
  | CO2_LARGE
  | CO2_SMALL
deriving DecidableEq

/-- `InventoryCounts`: one integer quantity per bottle kind. -/
structure InventoryCounts : Type where
  oxyzoneLarge : Int
  oxyzoneSmall : Int
  co2Large : Int
  co2Small : Int
deriving DecidableEq

/-- Quantity stored for one bottle kind. -/
def InventoryCounts.get (c : InventoryCounts) : BottleType → Int
  | .OXYZONE_LARGE => c.oxyzoneLarge
  | .OXYZONE_SMALL => c.oxyzoneSmall
  | .CO2_LARGE => c.co2Large
  | .CO2_SMALL => c.co2Small

/-- `Object.values(txCounts).reduce((a, b) => a + b, 0)` in
`handleSaveTransaction`. -/
def InventoryCounts.total (c : InventoryCounts) : Int :=
  c.oxyzoneLarge + c.oxyzoneSmall + c.co2Large + c.co2Small

/-- `INITIAL_COUNTS` from `constants.ts`: all four counts zero. -/
def INITIAL_COUNTS : InventoryCounts :=
  { oxyzoneLarge := 0, oxyzoneSmall := 0, co2Large := 0, co2Small := 0 }

/-- Transaction direction (`TransactionType` in `types.ts`). -/
inductive TransactionType : Type where
  | OUTGOING
  | INCOMING
deriving DecidableEq

/-- A ledger transaction (`Transaction` in `types.ts`). -/
structure Transaction : Type where
  id : String
  customerId : String
  customerName : String
  timestamp : Nat
  type : TransactionType
  items : InventoryCounts
  note : String
deriving DecidableEq

/-- A customer record (`Customer` in `types.ts`); `balance` and
`lastTransactionDate` are cached derived values. -/
structure Customer : Type where
  id : String
  name : String
  phone : String
  balance : InventoryCounts
  lastTransactionDate : Nat
deriving DecidableEq

/-- The whole-account snapshot (`AppData` in `types.ts`). -/
structure AppData : Type where
  customers : List Customer
  transactions : List Transaction
  version : Int
  storeLimits : InventoryCounts
deriving DecidableEq

/-- `EMPTY_DB` from `dataManager.ts`. -/
def EMPTY_DB : AppData :=
  { customers := [], transactions := [], version := 1, storeLimits := INITIAL_COUNTS }

/-- Entities handled by the merge engine expose a string identifier
(the TypeScript constraint `T extends { id: string }`). -/
class HasId (β : Type) : Type where
  key : β → String

instance : HasId Customer := ⟨Customer.id⟩

instance : HasId Transaction := ⟨Transaction.id⟩

/-- A generic identified entity, used to state the merge claims for an
arbitrary payload type. -/
structure Entity (α : Type) : Type where
  id : String
  val : α
deriving DecidableEq

instance {α : Type} : HasId (Entity α) := ⟨Entity.id⟩

/-- `new Map(list.map(i => [i.id, i])).get(k)`: the last element of `list`
whose identifier is `k`, if any (later entries overwrite earlier ones). -/
def jsGet {β : Type} [HasId β] : List β → String → Option β
  | [], _ => none
  | e :: rest, k =>
    match jsGet rest k with
    | some x => some x
    | none => if HasId.key e = k then some e else none

/-- `new Set(keys)` keeps each key once, in first-occurrence order. -/
def dedupFirst (xs : List String) : List String :=
  xs.foldl (fun acc x => if x ∈ acc then acc else acc ++ [x]) []

theorem jsGet_key {β : Type} [HasId β] :
    ∀ (l : List β) (k : String) (e : β), jsGet l k = some e → HasId.key e = k := by
  intro l
  induction l with
  | nil => intro k e h; simp [jsGet] at h
  | cons x rest ih =>
    intro k e h
    cases hr : jsGet rest k with
    | some y =>
      simp only [jsGet, hr] at h
      exact ih k e (hr.trans h)
    | none =>
      simp only [jsGet, hr] at h
      split at h
      · cases h; assumption
      · cases h

theorem jsGet_mem {β : Type} [HasId β] :
    ∀ (l : List β) (k : String) (e : β), jsGet l k = some e → e ∈ l := by
  intro l
  induction l with
  | nil => intro k e h; simp [jsGet] at h
  | cons x rest ih =>
    intro k e h
    cases hr : jsGet rest k with
    | some y =>
      simp only [jsGet, hr] at h
      exact List.mem_cons_of_mem x (ih k e (hr.trans h))
    | none =>
      simp only [jsGet, hr] at h
      split at h
      · cases h; exact List.mem_cons_self x rest
      · cases h

theorem jsGet_eq_none_iff {β : Type} [HasId β] :
    ∀ (l : List β) (k : String), jsGet l k = none ↔ k ∉ l.map HasId.key := by
  intro l
  induction l with
  | nil => intro k; simp [jsGet]
  | cons x rest ih =>
    intro k
    cases hr : jsGet rest k with
    | some y =>
      constructor
      · intro h
        simp only [jsGet, hr] at h
        cases h
      · intro h
        exfalso
        apply h
        simp only [List.map_cons, List.mem_cons]
        right
        have hy := jsGet_key rest k y hr
        have hm := jsGet_mem rest k y hr
        exact hy ▸ List.mem_map_of_mem HasId.key hm
    | none =>
      have hrest : k ∉ rest.map HasId.key := (ih k).mp hr
      simp only [jsGet, hr, List.map_cons, List.mem_cons, not_or]
      constructor
      · intro h
        refine ⟨?_, hrest⟩
        intro hk
        rw [if_pos hk.symm] at h
        cases h
      · intro h
        rw [if_neg (fun hk => h.1 hk.symm)]

theorem mem_foldl_dedup (xs : List String) :
    ∀ (acc : List String) (a : String),
      a ∈ xs.foldl (fun acc x => if x ∈ acc then acc else acc ++ [x]) acc ↔
        a ∈ acc ∨ a ∈ xs := by
  induction xs with
  | nil => intro acc a; simp
  | cons x rest ih =>
    intro acc a
    simp only [List.foldl_cons, ih, List.mem_cons]
    by_cases hx : x ∈ acc
    · simp only [if_pos hx]
      constructor
      · rintro (h | h)
        · exact Or.inl h
        · exact Or.inr (Or.inr h)
      · rintro (h | h | h)
        · exact Or.inl h
        · exact Or.inl (h ▸ hx)
        · exact Or.inr h
    · simp only [if_neg hx, List.mem_append, List.mem_singleton]
      tauto

theorem mem_dedupFirst (xs : List String) (a : String) :
    a ∈ dedupFirst xs ↔ a ∈ xs := by
  unfold dedupFirst
  rw [mem_foldl_dedup]
  simp

theorem nodup_foldl_dedup (xs : List String) :
    ∀ (acc : List String), acc.Nodup →
      (xs.foldl (fun acc x => if x ∈ acc then acc else acc ++ [x]) acc).Nodup := by
  induction xs with
  | nil => intro acc h; exact h
  | cons x rest ih =>
    intro acc hacc
    simp only [List.foldl_cons]
    apply ih
    by_cases hx : x ∈ acc
    · rw [if_pos hx]; exact hacc
    · rw [if_neg hx]
      refine List.Nodup.append hacc (List.nodup_singleton x) ?_
      intro a ha hax
      rw [List.mem_singleton] at hax
      subst hax
      exact hx ha

theorem nodup_dedupFirst (xs : List String) : (dedupFirst xs).Nodup :=
  nodup_foldl_dedup xs [] List.nodup_nil

/-- Per-identifier resolution of `mergeArrays` (the body of the
`allIds.forEach` loop in `dataManager.ts`): remote is pushed exactly when the
identifier is in remote and in base, the local entity equals the base entity,
and the remote entity differs from base; any other case with the identifier in
local pushes local; with the identifier absent from local, remote is kept only
when the identifier is not in base. -/
def mergeStep {β : Type} [HasId β] [DecidableEq β]
    (base remote loc : List β) (k : String) : Option β :=
  match jsGet loc k with
  | some localItem =>
    match jsGet base k, jsGet remote k with
    | some baseItem, some remoteItem =>
      if localItem = baseItem ∧ remoteItem ≠ baseItem then some remoteItem
      else some localItem
    | _, _ => some localItem
  | none =>
    match jsGet remote k with
    | some remoteItem =>
      match jsGet base k with
      | none => some remoteItem
      | some _ => none
    | none => none

/-- `mergeArrays` from `dataManager.ts`: three-way merge of entity lists,
iterating the union of remote and local identifiers in first-occurrence order
and resolving each identifier by `mergeStep`. -/
def mergeArrays {β : Type} [HasId β] [DecidableEq β]
    (base remote loc : List β) : List β :=
  (dedupFirst (remote.map HasId.key ++ loc.map HasId.key)).filterMap
    (mergeStep base remote loc)

theorem mergeStep_key {β : Type} [HasId β] [DecidableEq β]
    (base remote loc : List β) (k : String) (e : β)
    (h : mergeStep base remote loc k = some e) : HasId.key e = k := by
  unfold mergeStep at h
  split at h
  · rename_i localItem hl
    split at h
    · rename_i baseItem remoteItem hb hr
      split at h
      · cases h; exact jsGet_key remote k e hr
      · cases h; exact jsGet_key loc k e hl
    · cases h; exact jsGet_key loc k e hl
  · rename_i hl
    split at h
    · rename_i remoteItem hr
      split at h
      · cases h; exact jsGet_key remote k e hr
      · cases h
    · cases h

theorem mergeStep_mem {β : Type} [HasId β] [DecidableEq β]
    (base remote loc : List β) (k : String) (e : β)
    (h : mergeStep base remote loc k = some e) : e ∈ remote ∨ e ∈ loc := by
  unfold mergeStep at h
  split at h
  · rename_i localItem hl
    split at h
    · rename_i baseItem remoteItem hb hr
      split at h
      · cases h; exact Or.inl (jsGet_mem remote k e hr)
      · cases h; exact Or.inr (jsGet_mem loc k e hl)
    · cases h; exact Or.inr (jsGet_mem loc k e hl)
  · rename_i hl
    split at h
    · rename_i remoteItem hr
      split at h
      · cases h; exact Or.inl (jsGet_mem remote k e hr)
      · cases h
    · cases h

theorem jsGet_filterMap_of_not_mem {β : Type} [HasId β]
    (f : String → Option β) (hf : ∀ k e, f k = some e → HasId.key e = k) :
    ∀ (ids : List String) (k : String), k ∉ ids →
      jsGet (ids.filterMap f) k = none := by
  intro ids
  induction ids with
  | nil => intro k _; rfl
  | cons i rest ih =>
    intro k hk
    have hki : k ≠ i := fun h => hk (h ▸ List.mem_cons_self i rest)
    have hkr : k ∉ rest := fun h => hk (List.mem_cons_of_mem i h)
    cases hi : f i with
    | none => rw [List.filterMap_cons_none hi]; exact ih k hkr
    | some e =>
      rw [List.filterMap_cons_some hi]
      simp only [jsGet, ih k hkr]
      rw [if_neg (fun h => hki ((hf i e hi) ▸ h).symm)]

theorem jsGet_filterMap_of_mem {β : Type} [HasId β]
    (f : String → Option β) (hf : ∀ k e, f k = some e → HasId.key e = k) :
    ∀ (ids : List String) (k : String), ids.Nodup → k ∈ ids →
      jsGet (ids.filterMap f) k = f k := by
  intro ids
  induction ids with
  | nil => intro k _ hk; cases hk
  | cons i rest ih =>
    intro k hnd hk
    have hind : i ∉ rest := (List.nodup_cons.mp hnd).1
    have hndr : rest.Nodup := (List.nodup_cons.mp hnd).2
    rcases List.mem_cons.mp hk with hki | hkr
    · subst hki
      have hkrest : k ∉ rest := hind
      cases hi : f k with
      | none =>
        rw [List.filterMap_cons_none hi]
        exact jsGet_filterMap_of_not_mem f hf rest k hkrest
      | some e =>
        rw [List.filterMap_cons_some hi]
        simp only [jsGet, jsGet_filterMap_of_not_mem f hf rest k hkrest]
        rw [if_pos (hf k e hi)]
    · have hki : k ≠ i := fun h => hind (h ▸ hkr)
      cases hi : f i with
      | none => rw [List.filterMap_cons_none hi]; exact ih k hndr hkr
      | some e =>
        rw [List.filterMap_cons_some hi]
        simp only [jsGet, ih k hndr hkr]
        cases hfk : f k with
        | some x => rfl
        | none => rw [if_neg (fun h => hki ((hf i e hi) ▸ h).symm)]

theorem jsGet_mergeArrays {β : Type} [HasId β] [DecidableEq β]
    (base remote loc : List β) (k : String)
    (hk : k ∈ remote.map HasId.key ++ loc.map HasId.key) :
    jsGet (mergeArrays base remote loc) k = mergeStep base remote loc k := by
  unfold mergeArrays
  exact jsGet_filterMap_of_mem (mergeStep base remote loc)
    (mergeStep_key base remote loc)
    (dedupFirst (remote.map HasId.key ++ loc.map HasId.key)) k
    (nodup_dedupFirst _)
    ((mem_dedupFirst _ k).mpr hk)

/-- Insert a transaction into a list sorted ascending by timestamp, before the
first element with a strictly later or equal timestamp. -/
def insertTx (t : Transaction) : List Transaction → List Transaction
  | [] => [t]
  | x :: xs => if t.timestamp ≤ x.timestamp then t :: x :: xs else x :: insertTx t xs

/-- `customerTransactions.sort((a, b) => a.timestamp - b.timestamp)`: a stable
ascending sort by timestamp, embedded as insertion sort (folding from the
right with `insertTx` keeps elements with equal timestamps in input order). -/
def sortByTimestamp (l : List Transaction) : List Transaction :=
  l.foldr insertTx []

/-- One iteration of the balance loop in `recalculateCustomerStats`: for each
bottle kind, add the payload quantity when the transaction is `OUTGOING`,
subtract it when `INCOMING`. -/
def applyTx (b : InventoryCounts) (tx : Transaction) : InventoryCounts :=
  match tx.type with
  | .OUTGOING =>
    { oxyzoneLarge := b.oxyzoneLarge + tx.items.oxyzoneLarge,
      oxyzoneSmall := b.oxyzoneSmall + tx.items.oxyzoneSmall,
      co2Large := b.co2Large + tx.items.co2Large,
      co2Small := b.co2Small + tx.items.co2Small }
  | .INCOMING =>
    { oxyzoneLarge := b.oxyzoneLarge - tx.items.oxyzoneLarge,
      oxyzoneSmall := b.oxyzoneSmall - tx.items.oxyzoneSmall,
      co2Large := b.co2Large - tx.items.co2Large,
      co2Small := b.co2Small - tx.items.co2Small }

/-- `recalculateCustomerStats` from `App.tsx`: filter the ledger to one
customer, sort chronologically, then fold, accumulating the running balance
and `lastDate = Math.max(lastDate, tx.timestamp)` starting from
`{ ...INITIAL_COUNTS }` and `0`. -/
def recalculateCustomerStats (customerId : String) (allTransactions : List Transaction) :
    InventoryCounts × Nat :=
  let customerTransactions := allTransactions.filter (fun t => t.customerId = customerId)
  let sorted := sortByTimestamp customerTransactions
  sorted.foldl (fun acc tx => (applyTx acc.1 tx, max acc.2 tx.timestamp)) (INITIAL_COUNTS, 0)

/-- Modelled from the spec: the reference computation `deriveCustomerState`
of section 4.2 — filter to the customer, sort ascending by timestamp, fold the
signed payloads from a zero balance, and report the maximum timestamp seen
(zero for an empty set) as `lastActivity`. -/
def deriveCustomerState (customerId : String) (allTransactions : List Transaction) :
    InventoryCounts × Nat :=
  let txs := sortByTimestamp (allTransactions.filter (fun t => t.customerId = customerId))
  (txs.foldl applyTx INITIAL_COUNTS, txs.foldl (fun m tx => max m tx.timestamp) 0)

theorem foldl_pair {γ A B : Type} (f : A → γ → A) (g : B → γ → B) :
    ∀ (l : List γ) (a : A) (b : B),
      l.foldl (fun p c => (f p.1 c, g p.2 c)) (a, b) = (l.foldl f a, l.foldl g b) := by
  intro l
  induction l with
  | nil => intro a b; rfl
  | cons x xs ih => intro a b; simp only [List.foldl_cons]; exact ih (f a x) (g b x)

theorem foldl_rightComm_perm {γ δ : Type} (f : δ → γ → δ)
    (hf : ∀ b a₁ a₂, f (f b a₁) a₂ = f (f b a₂) a₁)
    {l₁ l₂ : List γ} (p : l₁.Perm l₂) : ∀ b, l₁.foldl f b = l₂.foldl f b := by
  induction p with
  | nil => intro b; rfl
  | cons x _ ih => intro b; simp only [List.foldl_cons]; exact ih _
  | swap x y l => intro b; simp only [List.foldl_cons]; rw [hf]
  | trans _ _ ih₁ ih₂ => intro b; exact (ih₁ b).trans (ih₂ b)

theorem insertTx_perm (t : Transaction) :
    ∀ (l : List Transaction), (insertTx t l).Perm (t :: l) := by
  intro l
  induction l with
  | nil => exact List.Perm.refl _
  | cons x xs ih =>
    unfold insertTx
    split
    · exact List.Perm.refl _
    · exact (List.Perm.cons x ih).trans (List.Perm.swap t x xs)

theorem sortByTimestamp_perm : ∀ (l : List Transaction), (sortByTimestamp l).Perm l := by
  intro l
  induction l with
  | nil => exact List.Perm.refl _
  | cons x xs ih =>
    unfold sortByTimestamp at ih ⊢
    simp only [List.foldr_cons]
    exact (insertTx_perm x _).trans (List.Perm.cons x ih)

theorem applyTx_rightComm (b : InventoryCounts) (t₁ t₂ : Transaction) :
    applyTx (applyTx b t₁) t₂ = applyTx (applyTx b t₂) t₁ := by
  unfold applyTx
  cases t₁.type <;> cases t₂.type <;>
    simp only [InventoryCounts.mk.injEq] <;>
    refine ⟨by ring, by ring, by ring, by ring⟩

theorem statsStep_rightComm (acc : InventoryCounts × Nat) (t₁ t₂ : Transaction) :
    (applyTx (applyTx acc.1 t₁) t₂, max (max acc.2 t₁.timestamp) t₂.timestamp) =
      (applyTx (applyTx acc.1 t₂) t₁, max (max acc.2 t₂.timestamp) t₁.timestamp) := by
  rw [applyTx_rightComm]
  rw [Prod.mk.injEq]
  exact ⟨rfl, by omega⟩

theorem recalculateCustomerStats_perm (customerId : String)
    {l₁ l₂ : List Transaction} (p : l₁.Perm l₂) :
    recalculateCustomerStats customerId l₁ = recalculateCustomerStats customerId l₂ := by
  unfold recalculateCustomerStats
  refine foldl_rightComm_perm _ (fun b a₁ a₂ => statsStep_rightComm b a₁ a₂) ?_ _
  exact (sortByTimestamp_perm _).trans
    ((p.filter (fun t => decide (t.customerId = customerId))).trans
      (sortByTimestamp_perm _).symm)

/-- A collection field as it may arrive from the remote store: absent
(`null`/`undefined`), a proper array, or a keyed object (the backend may
represent a sparse list as a map). -/
inductive CollVal (α : Type) : Type where
  | missing : CollVal α
  | arr : List α → CollVal α
  | obj : List (String × α) → CollVal α
deriving DecidableEq

/-- The `toArray` helper of `dataManager.ts`: `[]` for a falsy value, the
array itself for an array, `Object.values(obj)` for a keyed object. -/
def toArray {α : Type} : CollVal α → List α
  | .missing => []
  | .arr l => l
  | .obj m => m.map Prod.snd

/-- A raw snapshot as read from the remote store, before normalization:
collections may be missing or keyed, version and limits may be absent. -/
structure RawRemote : Type where
  customers : CollVal Customer
  transactions : CollVal Transaction
  version : Option Int
  storeLimits : Option InventoryCounts
deriving DecidableEq

/-- The JavaScript idiom `v || d` on an integer field that may also be
absent: absent or zero falls back to the default. -/
def jsOrInt (v : Option Int) (d : Int) : Int :=
  match v with
  | none => d
  | some x => if x = 0 then d else x

/-- The normalization applied to every value obtained from the remote store
(in the `onValue` callback and inside the push transaction): collections via
`toArray`, `version: val?.version || 1`, `storeLimits` defaulted to
`INITIAL_COUNTS`.  `none` is a `null` remote value. -/
def normalizeRemote : Option RawRemote → AppData
  | none =>
    { customers := [], transactions := [], version := 1, storeLimits := INITIAL_COUNTS }
  | some v =>
    { customers := toArray v.customers,
      transactions := toArray v.transactions,
      version := jsOrInt v.version 1,
      storeLimits := v.storeLimits.getD INITIAL_COUNTS }

/-- The raw image of an in-memory snapshot written verbatim to the remote
store: both collections as proper arrays, version and limits present. -/
def AppData.toRaw (a : AppData) : RawRemote :=
  { customers := .arr a.customers,
    transactions := .arr a.transactions,
    version := some a.version,
    storeLimits := some a.storeLimits }

/-- The sync-relevant process state of `dataManager.ts`: the module-level
baseline `lastReceivedJSON` (as the snapshot it serializes; `none` is the
empty string) and the remote store value at `oxytrack/data` (`none` when the
path is empty). -/
structure SyncState : Type where
  lastReceived : Option AppData
  store : Option RawRemote
deriving DecidableEq

/-- The fallback base used when `lastReceivedJSON` does not parse (the empty
string case): empty collections, version `0`, default limits. -/
def emptyBase : AppData :=
  { customers := [], transactions := [], version := 0, storeLimits := INITIAL_COUNTS }

/-- `pushToRemoteData` from `dataManager.ts`: skip when the snapshot
serializes to the current baseline fingerprint; otherwise run the remote
transaction — write the snapshot verbatim when the store is empty, else
normalize the store value, three-way merge each collection against the
baseline and the local snapshot, and write back the merged collections with
`version: (remote.version || 0) + 1` and the local `storeLimits`.  The
baseline variable itself is not touched by this function. -/
def pushToRemoteData (st : SyncState) (data : AppData) : SyncState :=
  if st.lastReceived = some data then st
  else
    match st.store with
    | none => { st with store := some data.toRaw }
    | some currentData =>
      let remote := normalizeRemote (some currentData)
      let base := st.lastReceived.getD emptyBase
      let merged : AppData :=
        { customers := mergeArrays base.customers remote.customers data.customers,
          transactions := mergeArrays base.transactions remote.transactions data.transactions,
          version := jsOrInt (some remote.version) 0 + 1,
          storeLimits := data.storeLimits }
      { st with store := some merged.toRaw }

/-- The `onValue` callback of `subscribeToRemoteData`: normalize the delivered
value, store its serialization in `lastReceivedJSON`, and hand the normalized
snapshot to the application. -/
def subscribeStep (st : SyncState) (val : Option RawRemote) : SyncState × AppData :=
  let normalizedData := normalizeRemote val
  ({ st with lastReceived := some normalizedData }, normalizedData)

/-- A parsed local-storage value: any of the snapshot fields may be absent. -/
structure RawAppData : Type where
  customers : Option (List Customer)
  transactions : Option (List Transaction)
  version : Option Int
  storeLimits : Option InventoryCounts
deriving DecidableEq

/-- The stored image of a well-formed snapshot (all fields present). -/
def AppData.toStored (a : AppData) : RawAppData :=
  { customers := some a.customers,
    transactions := some a.transactions,
    version := some a.version,
    storeLimits := some a.storeLimits }

/-- `loadFromStorage` from `dataManager.ts`.  The argument models
`localStorage.getItem` followed by `JSON.parse`: `none` — nothing stored;
`some none` — stored but unparseable (`JSON.parse` throws, the catch returns
`EMPTY_DB`); `some (some parsed)` — parsed successfully, in which case only a
missing `storeLimits` is defaulted and the value is returned as-is. -/
def loadFromStorage : Option (Option RawAppData) → RawAppData
  | none => EMPTY_DB.toStored
  | some none => EMPTY_DB.toStored
  | some (some parsed) =>
    { parsed with storeLimits := some (parsed.storeLimits.getD INITIAL_COUNTS) }

/-- `handleSaveTransaction` from `App.tsx`, restricted to its effect on the
snapshot.  `newId` stands for `generateId()` and `now` for `Date.now()`.
With no selected customer, or a form whose counts sum to zero, the snapshot
is returned unchanged (the code shows an alert and returns early); otherwise
the transaction list is updated (in-place edit by identifier, or a new
transaction prepended), the customer's cached stats are recomputed by replay,
and the version counter becomes `(prev.version || 1) + 1`. -/
def handleSaveTransaction (data : AppData) (selectedCustomer : Option Customer)
    (txType : TransactionType) (txCounts : InventoryCounts) (txNote : String)
    (editingTransaction : Option Transaction) (newId : String) (now : Nat) : AppData :=
  match selectedCustomer with
  | none => data
  | some sc =>
    if txCounts.total = 0 then data
    else
      let updatedTransactions : List Transaction :=
        match editingTransaction with
        | some et =>
          data.transactions.map (fun t =>
            if t.id = et.id then { t with type := txType, items := txCounts, note := txNote }
            else t)
        | none =>
          { id := newId, customerId := sc.id, customerName := sc.name,
            timestamp := now, type := txType, items := txCounts,
            note := txNote } :: data.transactions
      let stats := recalculateCustomerStats sc.id updatedTransactions
      let updatedCustomer : Customer :=
        { sc with balance := stats.1,
                  lastTransactionDate :=
                    if stats.2 = 0 then sc.lastTransactionDate else stats.2 }
      let newCustomers : List Customer :=
        match data.customers.findIdx? (fun c => c.id = sc.id) with
        | some i => data.customers.set i updatedCustomer
        | none => data.customers
      { data with customers := newCustomers,
                  transactions := updatedTransactions,
                  version := jsOrInt (some data.version) 1 + 1 }

theorem nodup_map_key_filterMap {β : Type} [HasId β]
    (f : String → Option β) (hf : ∀ k e, f k = some e → HasId.key e = k) :
    ∀ (ids : List String), ids.Nodup → ((ids.filterMap f).map HasId.key).Nodup := by
  intro ids
  induction ids with
  | nil => intro _; simp
  | cons i rest ih =>
    intro hnd
    obtain ⟨hi, hr⟩ := List.nodup_cons.mp hnd
    cases hfi : f i with
    | none => rw [List.filterMap_cons_none hfi]; exact ih hr
    | some e =>
      rw [List.filterMap_cons_some hfi, List.map_cons, List.nodup_cons]
      refine ⟨?_, ih hr⟩
      intro hmem
      rw [List.mem_map] at hmem
      obtain ⟨x, hx, hkx⟩ := hmem
      rw [List.mem_filterMap] at hx
      obtain ⟨j, hj, hfj⟩ := hx
      rw [hf j x hfj] at hkx
      rw [hf i e hfi] at hkx
      exact hi (hkx ▸ hj)

/-- Sample customer used in concrete witnesses. -/
def sampleCustomer : Customer :=
  { id := "c1", name := "Alice", phone := "0300", balance := INITIAL_COUNTS,
    lastTransactionDate := 0 }

/-- Sample snapshot holding one customer. -/
def sampleSnapshot : AppData :=
  { customers := [sampleCustomer], transactions := [], version := 1,
    storeLimits := INITIAL_COUNTS }

/-- OUT 5 on the large-oxygen kind at time 1. -/
def outTx5 : Transaction :=
  { id := "t1", customerId := "c1", customerName := "Alice", timestamp := 1,
    type := .OUTGOING,
    items := { oxyzoneLarge := 5, oxyzoneSmall := 0, co2Large := 0, co2Small := 0 },
    note := "" }

/-- IN 2 on the large-oxygen kind at time 2. -/
def inTx2 : Transaction :=
  { id := "t2", customerId := "c1", customerName := "Alice", timestamp := 2,
    type := .INCOMING,
    items := { oxyzoneLarge := 2, oxyzoneSmall := 0, co2Large := 0, co2Small := 0 },
    note := "" }

/-- OUT 1 on the large-oxygen kind at time 3. -/
def outTx1 : Transaction :=
  { id := "t3", customerId := "c1", customerName := "Alice", timestamp := 3,
    type := .OUTGOING,
    items := { oxyzoneLarge := 1, oxyzoneSmall := 0, co2Large := 0, co2Small := 0 },
    note := "" }

/-- C1: for an identifier present in local, `mergeArrays` outputs the remote
entity exactly when the identifier is present in base and remote, the local
entity equals the base entity (serialized forms agree), and the remote entity
differs from base; in every other case the local entity is output.  In
particular base=A:v1, remote=A:v1, local=A:v2 merges to A:v2, and base=A:v1,
remote=A:v2, local=A:v1 merges to A:v2. -/
theorem mergeArrays_local_resolution :
    (∀ {β : Type} [HasId β] [DecidableEq β] (base remote loc : List β) (k : String) (le : β),
      jsGet loc k = some le →
      jsGet (mergeArrays base remote loc) k =
        (match jsGet base k, jsGet remote k with
         | some be, some re => if le = be ∧ re ≠ be then some re else some le
         | _, _ => some le)) ∧
    mergeArrays [Entity.mk "A" 1] [Entity.mk "A" 1] [Entity.mk "A" (2 : Nat)] =
      [Entity.mk "A" 2] ∧
    mergeArrays [Entity.mk "A" 1] [Entity.mk "A" (2 : Nat)] [Entity.mk "A" 1] =
      [Entity.mk "A" 2] := by
  refine ⟨?_, by decide, by decide⟩
  intro β _ _ base remote loc k le hle
  have hkmem : k ∈ remote.map HasId.key ++ loc.map HasId.key := by
    rw [List.mem_append]
    right
    exact (jsGet_key loc k le hle) ▸ List.mem_map_of_mem HasId.key (jsGet_mem loc k le hle)
  rw [jsGet_mergeArrays base remote loc k hkmem]
  cases hb : jsGet base k <;> cases hr : jsGet remote k <;>
    simp only [mergeStep, hle, hb, hr]

/-- Witness for C1 at base=A:v1, remote=A:v1, local=A:v2. -/
theorem mergeArrays_local_resolution_witness :
    jsGet [Entity.mk "A" (2 : Nat)] "A" = some (Entity.mk "A" 2) ∧
    jsGet (mergeArrays [Entity.mk "A" 1] [Entity.mk "A" 1] [Entity.mk "A" (2 : Nat)]) "A" =
      some (Entity.mk "A" 2) :=
  ⟨by decide,
   (mergeArrays_local_resolution.1 [Entity.mk "A" 1] [Entity.mk "A" 1]
      [Entity.mk "A" (2 : Nat)] "A" (Entity.mk "A" 2) (by decide)).trans (by decide)⟩

/-- C2: for an identifier absent from local but present in remote,
`mergeArrays` keeps the remote entity when the identifier was not in base and
drops the identifier entirely when it was in base.  In particular base={},
remote={A}, local={} merges to {A}, and base={A}, remote={A}, local={} merges
to {}. -/
theorem mergeArrays_absent_local :
    (∀ {β : Type} [HasId β] [DecidableEq β] (base remote loc : List β) (k : String) (re : β),
      jsGet loc k = none → jsGet remote k = some re →
      jsGet (mergeArrays base remote loc) k =
        (if k ∈ base.map HasId.key then none else some re)) ∧
    mergeArrays ([] : List (Entity Nat)) [Entity.mk "A" 1] [] = [Entity.mk "A" 1] ∧
    mergeArrays [Entity.mk "A" (1 : Nat)] [Entity.mk "A" 1] [] = [] := by
  refine ⟨?_, by decide, by decide⟩
  intro β _ _ base remote loc k re hl hr
  have hkmem : k ∈ remote.map HasId.key ++ loc.map HasId.key := by
    rw [List.mem_append]
    left
    exact (jsGet_key remote k re hr) ▸ List.mem_map_of_mem HasId.key (jsGet_mem remote k re hr)
  rw [jsGet_mergeArrays base remote loc k hkmem]
  by_cases hbmem : k ∈ base.map HasId.key
  · rw [if_pos hbmem]
    have hbn : ¬jsGet base k = none := fun hn => (jsGet_eq_none_iff base k).mp hn hbmem
    cases hb : jsGet base k with
    | none => exact absurd hb hbn
    | some be => simp only [mergeStep, hl, hr, hb]
  · rw [if_neg hbmem]
    have hb : jsGet base k = none := (jsGet_eq_none_iff base k).mpr hbmem
    simp only [mergeStep, hl, hr, hb]

/-- Witness for C2 at base={A}, remote={A}, local={} (deletion propagates). -/
theorem mergeArrays_absent_local_witness :
    jsGet ([] : List (Entity Nat)) "A" = none ∧
    jsGet (mergeArrays [Entity.mk "A" (1 : Nat)] [Entity.mk "A" 1] []) "A" = none :=
  ⟨rfl,
   (mergeArrays_absent_local.1 [Entity.mk "A" 1] [Entity.mk "A" 1] []
      "A" (Entity.mk "A" 1) rfl (by decide)).trans (by decide)⟩

/-- C9: the merge output holds each identifier at most once, every output
entity is a member of remote or of local (entities are never synthesized),
and every output identifier occurs in remote or local — an entity present
only in base never reappears. -/
theorem mergeArrays_invariants :
    ∀ {β : Type} [HasId β] [DecidableEq β] (base remote loc : List β),
      ((mergeArrays base remote loc).map HasId.key).Nodup ∧
      (∀ e ∈ mergeArrays base remote loc, e ∈ remote ∨ e ∈ loc) ∧
      (∀ e ∈ mergeArrays base remote loc,
        HasId.key e ∈ remote.map HasId.key ∨ HasId.key e ∈ loc.map HasId.key) := by
  intro β _ _ base remote loc
  have hmem : ∀ e ∈ mergeArrays base remote loc, e ∈ remote ∨ e ∈ loc := by
    intro e he
    rw [mergeArrays, List.mem_filterMap] at he
    obtain ⟨k, _, hstep⟩ := he
    exact mergeStep_mem base remote loc k e hstep
  refine ⟨?_, hmem, ?_⟩
  · exact nodup_map_key_filterMap (mergeStep base remote loc)
      (mergeStep_key base remote loc) _ (nodup_dedupFirst _)
  · intro e he
    rcases hmem e he with h | h
    · exact Or.inl (List.mem_map_of_mem HasId.key h)
    · exact Or.inr (List.mem_map_of_mem HasId.key h)

/-- Witness for C9 at base={A:v1}, remote={A:v2}, local={B:v3}. -/
theorem mergeArrays_invariants_witness :
    ((mergeArrays [Entity.mk "A" (1 : Nat)] [Entity.mk "A" 2]
        [Entity.mk "B" 3]).map HasId.key).Nodup ∧
    (Entity.mk "B" (3 : Nat) ∈ [Entity.mk "A" (2 : Nat)] ∨
      Entity.mk "B" (3 : Nat) ∈ [Entity.mk "B" (3 : Nat)]) :=
  ⟨(mergeArrays_invariants [Entity.mk "A" 1] [Entity.mk "A" 2] [Entity.mk "B" 3]).1,
   (mergeArrays_invariants [Entity.mk "A" 1] [Entity.mk "A" 2] [Entity.mk "B" 3]).2.1
     (Entity.mk "B" 3) (by decide)⟩

/-- C3: `recalculateCustomerStats` coincides with the reference derivation
`deriveCustomerState` (filter, sort ascending by timestamp, fold signed
payloads from zero, maximum timestamp as last activity, zero when empty); on
the instance [OUT 5, IN 2, OUT 1] the derived balance is 4, and after the
middle transaction is deleted it is 6. -/
theorem recalculateCustomerStats_correct :
    (∀ (cid : String) (l : List Transaction),
      recalculateCustomerStats cid l = deriveCustomerState cid l) ∧
    (recalculateCustomerStats "c1" [outTx5, inTx2, outTx1]).1.oxyzoneLarge = 4 ∧
    (recalculateCustomerStats "c1"
      ([outTx5, inTx2, outTx1].filter (fun t => t.id ≠ "t2"))).1.oxyzoneLarge = 6 := by
  refine ⟨?_, by decide, by decide⟩
  intro cid l
  exact foldl_pair applyTx (fun m tx => max m tx.timestamp)
    (sortByTimestamp (l.filter (fun t => t.customerId = cid))) INITIAL_COUNTS 0

/-- C7: the balance derivation is deterministic (same list twice gives the
same result) and invariant under permutations with pairwise distinct
timestamps. -/
theorem recalculateCustomerStats_deterministic :
    (∀ (cid : String) (l : List Transaction),
      recalculateCustomerStats cid l = recalculateCustomerStats cid l) ∧
    (∀ (cid : String) (l₁ l₂ : List Transaction), l₁.Perm l₂ →
      l₁.Pairwise (fun a b => a.timestamp ≠ b.timestamp) →
      recalculateCustomerStats cid l₁ = recalculateCustomerStats cid l₂) :=
  ⟨fun _ _ => rfl, fun cid _ _ p _ => recalculateCustomerStats_perm cid p⟩

/-- Witness for C7: swapping two transactions with distinct timestamps. -/
theorem recalculateCustomerStats_deterministic_witness :
    recalculateCustomerStats "c1" [outTx5, inTx2] =
      recalculateCustomerStats "c1" [inTx2, outTx5] :=
  recalculateCustomerStats_deterministic.2 "c1" [outTx5, inTx2] [inTx2, outTx5]
    (List.Perm.swap inTx2 outTx5 []) (by decide)

/-- C5: when the snapshot to push serializes to the current baseline
fingerprint, `pushToRemoteData` performs no remote write and leaves the
whole sync state (store and fingerprint) unchanged. -/
theorem pushToRemoteData_skip_when_unchanged (st : SyncState) (data : AppData)
    (h : st.lastReceived = some data) : pushToRemoteData st data = st := by
  unfold pushToRemoteData
  rw [if_pos h]

/-- Witness for C5: pushing the freshly pulled empty snapshot is a no-op. -/
theorem pushToRemoteData_skip_when_unchanged_witness :
    pushToRemoteData ⟨some EMPTY_DB, some EMPTY_DB.toRaw⟩ EMPTY_DB =
      ⟨some EMPTY_DB, some EMPTY_DB.toRaw⟩ :=
  pushToRemoteData_skip_when_unchanged ⟨some EMPTY_DB, some EMPTY_DB.toRaw⟩ EMPTY_DB rfl

/-- Counterexample to C4: with an empty baseline and an empty remote store,
pushing a non-empty snapshot writes it to the store, yet the baseline
fingerprint afterwards still differs from the serialization of the written
value (`pushToRemoteData` never updates `lastReceivedJSON`). -/
theorem pushToRemoteData_baseline_counterexample :
    (pushToRemoteData ⟨none, none⟩ sampleSnapshot).store = some sampleSnapshot.toRaw ∧
    (pushToRemoteData ⟨none, none⟩ sampleSnapshot).lastReceived ≠ some sampleSnapshot := by
  decide

/-- C4 amended: `pushToRemoteData` leaves the baseline fingerprint unchanged
in every case (skip, first write, and merged write-back); the fingerprint is
updated only by the remote-change subscription callback, which sets it to the
serialization of the normalized delivered value. -/
theorem pushToRemoteData_baseline_unchanged :
    (∀ (st : SyncState) (data : AppData),
      (pushToRemoteData st data).lastReceived = st.lastReceived) ∧
    (∀ (st : SyncState) (val : Option RawRemote),
      (subscribeStep st val).1.lastReceived = some (normalizeRemote val)) := by
  constructor
  · intro st data
    unfold pushToRemoteData
    split
    · rfl
    · split <;> rfl
  · intro st val
    rfl

/-- Counterexample to C6: a stored value that parses to an object with no
`customers` and no `transactions` field is returned with both collections
still absent — `loadFromStorage` does not replace missing collections. -/
theorem loadFromStorage_missing_collections_counterexample :
    (loadFromStorage (some (some ⟨none, none, some 5, none⟩))).customers = none ∧
    (loadFromStorage (some (some ⟨none, none, some 5, none⟩))).transactions = none :=
  ⟨rfl, rfl⟩

/-- C6 amended: `loadFromStorage` returns the empty default snapshot when
nothing is stored or the stored value is unparseable; when the stored value
parses, only a missing `storeLimits` is silently defaulted and the value is
returned otherwise as-is, so missing collections are passed through. -/
theorem loadFromStorage_behavior :
    loadFromStorage none = EMPTY_DB.toStored ∧
    loadFromStorage (some none) = EMPTY_DB.toStored ∧
    ∀ (parsed : RawAppData),
      loadFromStorage (some (some parsed)) =
        { parsed with storeLimits := some (parsed.storeLimits.getD INITIAL_COUNTS) } :=
  ⟨rfl, rfl, fun _ => rfl⟩

/-- C8: normalizing an already-normalized snapshot (collections are lists,
version a non-zero number, limits present) is the identity. -/
theorem normalizeRemote_idempotent (a : AppData) (h : a.version ≠ 0) :
    normalizeRemote (some a.toRaw) = a := by
  cases a with
  | mk c t v s =>
    simp only [normalizeRemote, AppData.toRaw, toArray, jsOrInt, Option.getD_some] at h ⊢
    rw [if_neg h]

/-- Witness for C8 at the empty snapshot (version 1). -/
theorem normalizeRemote_idempotent_witness :
    normalizeRemote (some EMPTY_DB.toRaw) = EMPTY_DB :=
  normalizeRemote_idempotent EMPTY_DB (by decide)

/-- C10: saving a transaction whose payload counts are all zero leaves the
snapshot unchanged: no transaction is created or edited, no balance is
overwritten, and the version counter is not incremented. -/
theorem handleSaveTransaction_zero_noop (data : AppData) (selectedCustomer : Option Customer)
    (txType : TransactionType) (txCounts : InventoryCounts) (txNote : String)
    (editingTransaction : Option Transaction) (newId : String) (now : Nat)
    (h : ∀ k : BottleType, txCounts.get k = 0) :
    handleSaveTransaction data selectedCustomer txType txCounts txNote
      editingTransaction newId now = data := by
  have htot : txCounts.total = 0 := by
    have h1 := h .OXYZONE_LARGE
    have h2 := h .OXYZONE_SMALL
    have h3 := h .CO2_LARGE
    have h4 := h .CO2_SMALL
    simp only [InventoryCounts.get] at h1 h2 h3 h4
    unfold InventoryCounts.total
    omega
  unfold handleSaveTransaction
  cases selectedCustomer with
  | none => rfl
  | some sc => simp [htot]

/-- Witness for C10: an all-zero form on a sample snapshot. -/
theorem handleSaveTransaction_zero_noop_witness :
    handleSaveTransaction sampleSnapshot (some sampleCustomer) .OUTGOING INITIAL_COUNTS ""
      none "t9" 5 = sampleSnapshot :=
  handleSaveTransaction_zero_noop sampleSnapshot (some sampleCustomer) .OUTGOING
    INITIAL_COUNTS "" none "t9" 5 (by intro k; cases k <;> rfl)
